import Mathlib

/-!
# "New Yale" sparse storage: index-type selection, size bounds, diagonal clearing

A shallow embedding of the inline code of `ext/nmatrix/storage/yale.h`:

* `yale_storage_itype_by_shape` and `yale_storage_itype` (lines 142-167),
* the size helpers `YALE_MINIMUM` and `YALE_MAX_SIZE` (lines 72 and 74),
* `yale_storage_clear_diagonal_and_zero_template` (lines 187-194).

`size_t` and `uint64_t` are 64-bit unsigned integers.  They are embedded as
natural numbers, and every `size_t` operation of the source reduces its result
modulo `2 ^ 64`.
-/

namespace Yale

/-! ## Machine arithmetic -/

/-- Addition of two `size_t` values (wraps modulo `2 ^ 64`). -/
def size_t_add (a b : Nat) : Nat := (a + b) % 2 ^ 64

/-- Multiplication of two `size_t` values (wraps modulo `2 ^ 64`). -/
def size_t_mul (a b : Nat) : Nat := (a * b) % 2 ^ 64

/-- The value of `std::numeric_limits<uint8_t>::max()`. -/
def uint8_max : Nat := 255

/-- The value of `std::numeric_limits<uint16_t>::max()`. -/
def uint16_max : Nat := 65535

/-- The value of `std::numeric_limits<uint32_t>::max()`. -/
def uint32_max : Nat := 4294967295

/-! ## Index types -/

/-- Modelled from the spec: the enumeration `itype_t` is declared in `types.h`,
which is not part of the sources at hand.  The header uses exactly the four
tags `UINT8`, `UINT16`, `UINT32`, `UINT64`; the spec calls them the
"{8,16,32,64}-bit unsigned width". -/
inductive itype_t where
  | UINT8
  | UINT16
  | UINT32
  | UINT64
  deriving DecidableEq

/-- Modelled from the spec: the bit width of an index type ("the narrowest of
{8,16,32,64}-bit unsigned width"). -/
def itype_t.bits : itype_t → Nat
  | .UINT8 => 8
  | .UINT16 => 16
  | .UINT32 => 32
  | .UINT64 => 64

/-- The largest value an unsigned integer of the given index type stores,
`2 ^ w - 1` (the spec's `max_value_of_width`). -/
def itype_t.max_value (t : itype_t) : Nat := 2 ^ t.bits - 1

/-- The spec's invariant for a width: `p < max_value_of_width - 2`. -/
def itype_t.permits (t : itype_t) (p : Nat) : Prop := p < t.max_value - 2

instance (t : itype_t) (p : Nat) : Decidable (t.permits p) := by
  unfold itype_t.permits; infer_instance

/-- The index type chosen for a shape, lines 142-157 of `yale.h`.
`shape.1` is `shape[0]` (rows) and `shape.2` is `shape[1]` (columns).  The
product is formed in `size_t`, so both `shape[1]+1` and the multiplication
wrap.  The third comparison is against a `uint32_t` constant, which is
converted to 64 bits without change. -/
def yale_storage_itype_by_shape (shape : Nat × Nat) : itype_t :=
  let yale_max_size := size_t_mul shape.1 (size_t_add shape.2 1)
  if yale_max_size < uint8_max - 2 then
    itype_t.UINT8
  else if yale_max_size < uint16_max - 2 then
    itype_t.UINT16
  else if yale_max_size < uint32_max - 2 then
    itype_t.UINT32
  else
    itype_t.UINT64

/-- The exact (mathematical, non-wrapping) product `rows * (cols + 1)`. -/
def exact_product (shape : Nat × Nat) : Nat := shape.1 * (shape.2 + 1)

/-! ## The storage record and its size helpers -/

/-- Modelled from the spec: the record `YALE_STORAGE` is declared in a header
that is not part of the sources at hand.  `yale.h` itself reads the fields
`shape`, `ija` and `a`; the spec's data model adds the tags `dtype` and `itype`
and the `capacity`.  The number of entries in use (`size`) is not a field: it
is kept inside `ija`, at position `shape[0]` (`YALE_SIZE_PTR`, line 73). -/
structure YALE_STORAGE (DType : Type) where
  dtype : Nat
  itype : itype_t
  shape : Nat × Nat
  capacity : Nat
  ija : List Nat
  a : List DType

/-- Line 72: `YALE_MINIMUM(sptr) = sptr->shape[0]*2 + 1`, in `size_t`. -/
def YALE_MINIMUM {DType : Type} (sptr : YALE_STORAGE DType) : Nat :=
  size_t_add (size_t_mul sptr.shape.1 2) 1

/-- Line 74: `YALE_MAX_SIZE(sptr) = sptr->shape[0] * sptr->shape[1] + 1`, in
`size_t`. -/
def YALE_MAX_SIZE {DType : Type} (sptr : YALE_STORAGE DType) : Nat :=
  size_t_add (size_t_mul sptr.shape.1 sptr.shape.2) 1

/-- Lines 165-167: the index type of a storage is recomputed from its shape. -/
def yale_storage_itype {DType : Type} (s : YALE_STORAGE DType) : itype_t :=
  yale_storage_itype_by_shape s.shape

/-! ## Clearing the diagonal -/

/-- The loop of lines 192-193, `for (size_t i = 0; i < bound; ++i) a[i] = 0;`
started at counter `i`.  The first argument after `bound` is fuel.  The list
`writes` is a ghost log of the positions assigned so far; it does not
influence the computation.  The result is `none` when an assignment falls
outside the vector (undefined behaviour in the source) or when the fuel runs
out before the loop condition fails. -/
def clear_loop {DType : Type} [Zero DType] (bound : Nat) :
    Nat → Nat → List DType → List Nat → Option (List DType × List Nat)
  | 0, i, a, writes => if i < bound then none else some (a, writes)
  | fuel + 1, i, a, writes =>
    if i < bound then
      if i < a.length then
        clear_loop bound fuel (size_t_add i 1) (a.set i 0) (writes ++ [i])
      else
        none
    else
      some (a, writes)

/-- Lines 187-194: `yale_storage_clear_diagonal_and_zero_template<DType>`.
The loop bound `s->shape[0]+1` is a `size_t` sum.  The loop is given `bound`
units of fuel, one for each iteration it can make.  Returns the storage after
the call together with the ghost log of written positions. -/
def yale_storage_clear_diagonal_and_zero_template {DType : Type} [Zero DType]
    (s : YALE_STORAGE DType) : Option (YALE_STORAGE DType × List Nat) :=
  let bound := size_t_add s.shape.1 1
  match clear_loop bound bound 0 s.a [] with
  | none => none
  | some (a, writes) => some ({ s with a := a }, writes)

/-! ## Definitions that follow the wording of the specification -/

/-- An unsigned integer of index type `t` can store the value `n`. -/
def can_store (t : itype_t) (n : Nat) : Prop := n ≤ t.max_value

instance (t : itype_t) (n : Nat) : Decidable (can_store t n) := by
  unfold can_store; infer_instance

/-- The rule of the header comment (lines 31-32), in its words: the index type
"is defined by whatever unsigned type can store max(rows,cols)", read as the
narrowest such type. -/
def is_narrowest_storing (t : itype_t) (n : Nat) : Prop :=
  can_store t n ∧ ∀ t2 : itype_t, can_store t2 n → t.bits ≤ t2.bits

/-- Number of off-diagonal cells `(i, j)` with `i < rows`, `j < cols`,
`i ≠ j`, counted row by row. -/
def off_diagonal_cells (shape : Nat × Nat) : Nat :=
  ((List.range shape.1).map
    (fun i => ((List.range shape.2).filter (fun j => decide (i ≠ j))).length)).sum

/-- Slots the layout needs when every cell is materialised, in the words of
the spec: "diagonal + sentinel + every off-diagonal cell at most once". -/
def full_layout_slots (shape : Nat × Nat) : Nat :=
  shape.1 + 1 + off_diagonal_cells shape

/-- Modelled from the spec: the body of `yale_storage_create` is not part of
the sources at hand (line 104 only declares it).  The spec says it "allocates
vectors of length `max(initial_capacity, 2*rows+1)`"; the floor is the helper
`YALE_MINIMUM` of line 72. -/
def yale_storage_create_capacity {DType : Type} (s : YALE_STORAGE DType)
    (init_capacity : Nat) : Nat :=
  max init_capacity (YALE_MINIMUM s)

/-- Modelled from the spec: the body of `yale_storage_create` is not part of
the sources at hand.  The spec says a new storage has `size = rows+1`. -/
def yale_storage_create_size {DType : Type} (s : YALE_STORAGE DType) : Nat :=
  s.shape.1 + 1

/-- A storage of integers with the given shape and nothing else of note; used
to state concrete examples. -/
def storage_of_shape (shape : Nat × Nat) : YALE_STORAGE Int :=
  { dtype := 0, itype := itype_t.UINT8, shape := shape, capacity := 0, ija := [], a := [] }

/-! ## Helper lemmas on the wrapped product -/

theorem wrapped_product_eq (rows cols : Nat) (h : rows * (cols + 1) < 2 ^ 64) :
    size_t_mul rows (size_t_add cols 1) = rows * (cols + 1) := by
  unfold size_t_mul size_t_add
  rcases Nat.eq_zero_or_pos rows with h0 | hpos
  · subst h0; simp
  · have hle : cols + 1 ≤ rows * (cols + 1) := Nat.le_mul_of_pos_left _ hpos
    rw [Nat.mod_eq_of_lt (lt_of_le_of_lt hle h), Nat.mod_eq_of_lt h]

/-- The selector as a function of the exact product, when that product fits in
64 bits. -/
theorem itype_by_exact_product (shape : Nat × Nat) (h : exact_product shape < 2 ^ 64) :
    yale_storage_itype_by_shape shape =
      (if exact_product shape < 253 then itype_t.UINT8
       else if exact_product shape < 65533 then itype_t.UINT16
       else if exact_product shape < 4294967293 then itype_t.UINT32
       else itype_t.UINT64) := by
  obtain ⟨rows, cols⟩ := shape
  unfold exact_product at h ⊢
  simp only [yale_storage_itype_by_shape, wrapped_product_eq rows cols h,
    uint8_max, uint16_max, uint32_max]

/-- Every index type permits only products below `2 ^ 64 - 3`. -/
theorem permits_lt (t : itype_t) (p : Nat) (h : t.permits p) : p < 2 ^ 64 - 3 := by
  cases t <;> simp [itype_t.permits, itype_t.max_value, itype_t.bits] at h <;> omega

/-- Below `2 ^ 64 - 3` the type chosen by the selector permits the exact
product. -/
theorem permits_of_lt (shape : Nat × Nat) (h : exact_product shape < 2 ^ 64 - 3) :
    (yale_storage_itype_by_shape shape).permits (exact_product shape) := by
  have h64 : exact_product shape < 2 ^ 64 := by omega
  rw [itype_by_exact_product shape h64]
  generalize exact_product shape = p at h h64
  split_ifs <;> simp [itype_t.permits, itype_t.max_value, itype_t.bits] <;> omega

/-- Closed form of the number of off-diagonal cells in one row. -/
theorem off_diagonal_in_row (i cols : Nat) :
    ((List.range cols).filter (fun j => decide (i ≠ j))).length =
      cols - (if i < cols then 1 else 0) := by
  induction cols with
  | zero => simp
  | succ c ih =>
    rw [List.range_succ, List.filter_append, List.length_append, ih]
    by_cases hic : i = c
    · subst hic; simp
    · have hne : decide (i ≠ c) = true := by simpa using hic
      simp only [List.filter_cons, hne, List.filter_nil, if_true, List.length_singleton]
      split_ifs <;> omega

/-- Closed form of the number of off-diagonal cells: all cells but the
`min rows cols` diagonal ones. -/
theorem off_diagonal_cells_add_min (rows cols : Nat) :
    off_diagonal_cells (rows, cols) + min rows cols = rows * cols := by
  unfold off_diagonal_cells
  induction rows with
  | zero => simp
  | succ r ih =>
    simp only at ih ⊢
    rw [List.range_succ, List.map_append, List.sum_append, List.map_singleton,
      List.sum_singleton, off_diagonal_in_row, Nat.succ_mul]
    by_cases hrc : r < cols
    · rw [if_pos hrc, Nat.min_eq_left (by omega)]
      rw [Nat.min_eq_left (by omega)] at ih
      omega
    · rw [if_neg hrc, Nat.min_eq_right (by omega)]
      rw [Nat.min_eq_right (by omega)] at ih
      omega

/-- The full layout needs `rows*cols + 1` slots, plus `rows - cols` more when
there are more rows than columns. -/
theorem full_layout_slots_eq (shape : Nat × Nat) :
    full_layout_slots shape = shape.1 * shape.2 + 1 + (shape.1 - shape.2) := by
  obtain ⟨rows, cols⟩ := shape
  have h := off_diagonal_cells_add_min rows cols
  simp only [full_layout_slots]
  rcases Nat.le_total rows cols with hle | hle
  · rw [Nat.min_eq_left hle] at h; omega
  · rw [Nat.min_eq_right hle] at h; omega

/-- For shapes with `rows*cols + 1` below `2 ^ 64`, the code's `YALE_MAX_SIZE`
bounds the full layout exactly when there are no more rows than columns. -/
theorem max_size_bounds_full_layout_iff {DType : Type} (s : YALE_STORAGE DType)
    (h : s.shape.1 * s.shape.2 + 1 < 2 ^ 64) :
    full_layout_slots s.shape ≤ YALE_MAX_SIZE s ↔ s.shape.1 ≤ s.shape.2 := by
  have emax : YALE_MAX_SIZE s = s.shape.1 * s.shape.2 + 1 := by
    unfold YALE_MAX_SIZE size_t_add size_t_mul
    rw [Nat.mod_eq_of_lt (a := s.shape.1 * s.shape.2) (by omega), Nat.mod_eq_of_lt (by omega)]
  rw [emax, full_layout_slots_eq]
  omega

/-! ## The index-type selector -/

/-- C1: for every shape whose exact product `p = rows*(cols+1)` is below
`2^64 - 3`, the selector returns the narrowest width `w` of 8, 16, 32, 64 with
`p < (2^w - 1) - 2`: it permits `p`, no permitting width is narrower, and it is
UINT8 iff `p < 253`, UINT16 iff `253 ≤ p < 65533`, UINT32 iff
`65533 ≤ p < 4294967293`, UINT64 otherwise. -/
theorem itype_by_shape_is_narrowest_permitting (shape : Nat × Nat)
    (h : exact_product shape < 2 ^ 64 - 3) :
    (yale_storage_itype_by_shape shape).permits (exact_product shape) ∧
    (∀ t : itype_t, t.permits (exact_product shape) →
      (yale_storage_itype_by_shape shape).bits ≤ t.bits) ∧
    (yale_storage_itype_by_shape shape = itype_t.UINT8 ↔ exact_product shape < 253) ∧
    (yale_storage_itype_by_shape shape = itype_t.UINT16 ↔
      253 ≤ exact_product shape ∧ exact_product shape < 65533) ∧
    (yale_storage_itype_by_shape shape = itype_t.UINT32 ↔
      65533 ≤ exact_product shape ∧ exact_product shape < 4294967293) ∧
    (yale_storage_itype_by_shape shape = itype_t.UINT64 ↔
      4294967293 ≤ exact_product shape) := by
  have h64 : exact_product shape < 2 ^ 64 := by omega
  rw [itype_by_exact_product shape h64]
  generalize exact_product shape = p at h h64
  refine ⟨?_, ?_, ?_, ?_, ?_, ?_⟩
  · split_ifs <;> simp [itype_t.permits, itype_t.max_value, itype_t.bits] <;> omega
  · intro t ht
    cases t <;> simp [itype_t.permits, itype_t.max_value, itype_t.bits] at ht <;>
      split_ifs <;> simp [itype_t.bits]
  · split_ifs <;> simp <;> omega
  · split_ifs <;> simp <;> omega
  · split_ifs <;> simp <;> omega
  · split_ifs <;> simp <;> omega

/-- The spec's two examples for C1: shape `(1,251)` gives UINT8. -/
theorem itype_by_shape_is_narrowest_permitting_witness :
    yale_storage_itype_by_shape (1, 251) = itype_t.UINT8 :=
  (itype_by_shape_is_narrowest_permitting (1, 251) (by decide)).2.2.1.mpr (by decide)

/-- The second example of C1: shape `(1,252)` gives UINT16. -/
theorem itype_by_shape_example_uint16 :
    yale_storage_itype_by_shape (1, 252) = itype_t.UINT16 := by decide

/-- C2 as stated fails: for the 64-bit shape `(2^32, 2^32 - 1)` the exact
product is `2^64`, the wrapped product is `0`, the selector returns UINT8, and
`2^64 < 253` is false; for the shape `(1, 2^64 - 4)` nothing wraps, the
fallback branch returns UINT64, and `2^64 - 3 < 2^64 - 3` is false. -/
theorem itype_bound_on_exact_product_fails :
    (yale_storage_itype_by_shape (4294967296, 4294967295) = itype_t.UINT8 ∧
      ¬ (yale_storage_itype_by_shape (4294967296, 4294967295)).permits
          (exact_product (4294967296, 4294967295))) ∧
    (yale_storage_itype_by_shape (1, 18446744073709551612) = itype_t.UINT64 ∧
      ¬ (yale_storage_itype_by_shape (1, 18446744073709551612)).permits
          (exact_product (1, 18446744073709551612))) := by
  decide

/-- C2, amended: for every shape whose exact product `rows*(cols+1)` fits in 64
bits, the width returned satisfies the bound `rows*(cols+1) < (2^w - 1) - 2`
exactly when the product is below `2^64 - 3`; for the remaining products
`2^64 - 3`, `2^64 - 2`, `2^64 - 1` the fallback UINT64 is returned, and no
width satisfies the bound. -/
theorem itype_bound_on_exact_product_iff (shape : Nat × Nat)
    (h : exact_product shape < 2 ^ 64) :
    ((yale_storage_itype_by_shape shape).permits (exact_product shape) ↔
      exact_product shape < 2 ^ 64 - 3) ∧
    (2 ^ 64 - 3 ≤ exact_product shape →
      yale_storage_itype_by_shape shape = itype_t.UINT64 ∧
      ∀ t : itype_t, ¬ t.permits (exact_product shape)) := by
  refine ⟨⟨permits_lt _ _, permits_of_lt shape⟩, fun hge => ⟨?_, ?_⟩⟩
  · rw [itype_by_exact_product shape h]
    generalize exact_product shape = p at h hge
    split_ifs <;> first | rfl | omega
  · intro t ht
    have := permits_lt t _ ht
    omega

/-- C2 amended, at shape `(3,4)`: the product `15` is below `2^8 - 3`. -/
theorem itype_bound_on_exact_product_iff_witness :
    (yale_storage_itype_by_shape (3, 4)).permits (exact_product (3, 4)) :=
  (itype_bound_on_exact_product_iff (3, 4) (by decide)).1.mpr (by decide)

/-- C10: among shapes whose products fit in 64 bits the selector is a monotone
function of the product `rows*(cols+1)`: a larger product never gets a
narrower type, equal products get the same type, and enlarging rows or
columns never yields a narrower type. -/
theorem itype_by_shape_monotone (A B : Nat × Nat)
    (hA : exact_product A < 2 ^ 64) (hB : exact_product B < 2 ^ 64) :
    (exact_product A ≤ exact_product B →
      (yale_storage_itype_by_shape A).bits ≤ (yale_storage_itype_by_shape B).bits) ∧
    (exact_product A = exact_product B →
      yale_storage_itype_by_shape A = yale_storage_itype_by_shape B) ∧
    (A.1 ≤ B.1 → A.2 ≤ B.2 →
      (yale_storage_itype_by_shape A).bits ≤ (yale_storage_itype_by_shape B).bits) := by
  have mono : exact_product A ≤ exact_product B →
      (yale_storage_itype_by_shape A).bits ≤ (yale_storage_itype_by_shape B).bits := by
    rw [itype_by_exact_product A hA, itype_by_exact_product B hB]
    generalize exact_product A = pA
    generalize exact_product B = pB
    intro hle
    split_ifs <;> simp [itype_t.bits] <;> omega
  refine ⟨mono, ?_, ?_⟩
  · intro heq
    rw [itype_by_exact_product A hA, itype_by_exact_product B hB, heq]
  · intro h1 h2
    apply mono
    unfold exact_product
    exact Nat.mul_le_mul h1 (Nat.succ_le_succ h2)

/-- C10 at the shapes `(3, 80)` (product 243, UINT8) and `(4, 80)` (product
324, UINT16). -/
theorem itype_by_shape_monotone_witness :
    (yale_storage_itype_by_shape (3, 80)).bits ≤ (yale_storage_itype_by_shape (4, 80)).bits :=
  (itype_by_shape_monotone (3, 80) (4, 80) (by decide) (by decide)).1 (by decide)

/-! ## The header comment's rule -/

/-- C3 as stated fails: for shape `(16,16)` the selector returns UINT16 although
UINT8 stores `max(16,16) = 16`, so the result is not the narrowest type storing
`max(rows,cols)`; for shape `(0,1000)` it returns UINT8, which does not store
`1000` at all. -/
theorem itype_is_not_narrowest_storing_max :
    (yale_storage_itype_by_shape (16, 16) = itype_t.UINT16 ∧
      ¬ is_narrowest_storing (yale_storage_itype_by_shape (16, 16)) (max 16 16)) ∧
    (yale_storage_itype_by_shape (0, 1000) = itype_t.UINT8 ∧
      ¬ is_narrowest_storing (yale_storage_itype_by_shape (0, 1000)) (max 0 1000)) := by
  refine ⟨⟨by decide, ?_⟩, ⟨by decide, ?_⟩⟩
  · intro h
    have h8 := h.2 itype_t.UINT8 (by decide)
    revert h8
    decide
  · intro h
    have h8 := h.1
    revert h8
    decide

/-- C3, amended: for every shape with at least one row whose product
`rows*(cols+1)` fits in 64 bits, the type returned can store
`max(rows,cols)`, and hence is at least as wide as the narrowest type that
can. -/
theorem itype_stores_max (shape : Nat × Nat) (hrows : 1 ≤ shape.1)
    (h : exact_product shape < 2 ^ 64) :
    can_store (yale_storage_itype_by_shape shape) (max shape.1 shape.2) ∧
    ∀ t : itype_t, is_narrowest_storing t (max shape.1 shape.2) →
      t.bits ≤ (yale_storage_itype_by_shape shape).bits := by
  have hstore : can_store (yale_storage_itype_by_shape shape) (max shape.1 shape.2) := by
    rw [itype_by_exact_product shape h]
    have h1 : shape.1 ≤ exact_product shape := Nat.le_mul_of_pos_right _ (Nat.succ_pos _)
    have h2 : shape.2 + 1 ≤ exact_product shape := Nat.le_mul_of_pos_left _ hrows
    have hmax : max shape.1 shape.2 ≤ exact_product shape := max_le h1 (by omega)
    generalize exact_product shape = p at h hmax
    generalize max shape.1 shape.2 = m at hmax
    split_ifs <;> simp [can_store, itype_t.max_value, itype_t.bits] <;> omega
  exact ⟨hstore, fun t ht => ht.2 _ hstore⟩

/-- C3 amended, at shape `(16,16)`: UINT16 stores 16. -/
theorem itype_stores_max_witness :
    can_store (yale_storage_itype_by_shape (16, 16)) (max 16 16) :=
  (itype_stores_max (16, 16) (by decide) (by decide)).1

/-! ## Reserved index values -/

/-- C4 as stated fails in the case `rows = 0`: the shape `(0,1000)` has product
`0`, the selector returns UINT8, and the column index `254 < cols` equals the
reserved value `2^8 - 2`. -/
theorem column_index_bound_fails_without_rows :
    exact_product (storage_of_shape (0, 1000)).shape < 2 ^ 64 - 3 ∧
    yale_storage_itype (storage_of_shape (0, 1000)) = itype_t.UINT8 ∧
    ¬ ∀ j : Nat, j < (storage_of_shape (0, 1000)).shape.2 →
        j < (yale_storage_itype (storage_of_shape (0, 1000))).max_value - 1 := by
  refine ⟨by decide, by decide, ?_⟩
  intro h
  have h254 := h 254 (by decide)
  revert h254
  decide

/-- C4, amended: when the exact product `rows*(cols+1)` is below `2^64 - 3` and
`w` is the width chosen, `YALE_MAX_SIZE = rows*cols + 1`, the spec's bound
`rows*(cols+1) + 1`, every position up to those bounds, and the column index
of every cell `(i, j)` with `i < rows`, `j < cols` are strictly below the
smaller reserved value `2^w - 2`. -/
theorem indices_below_reserved {DType : Type} (s : YALE_STORAGE DType)
    (h : exact_product s.shape < 2 ^ 64 - 3) :
    YALE_MAX_SIZE s = s.shape.1 * s.shape.2 + 1 ∧
    YALE_MAX_SIZE s < (yale_storage_itype s).max_value - 1 ∧
    exact_product s.shape + 1 < (yale_storage_itype s).max_value - 1 ∧
    (∀ x : Nat, x ≤ YALE_MAX_SIZE s ∨ x ≤ exact_product s.shape + 1 →
      x < (yale_storage_itype s).max_value - 1) ∧
    (∀ i j : Nat, i < s.shape.1 → j < s.shape.2 →
      j < (yale_storage_itype s).max_value - 1) := by
  have hadm := permits_of_lt s.shape h
  have hmax : YALE_MAX_SIZE s = s.shape.1 * s.shape.2 + 1 := by
    have hexp : exact_product s.shape = s.shape.1 * s.shape.2 + s.shape.1 := by
      simp [exact_product, Nat.mul_succ]
    unfold YALE_MAX_SIZE size_t_add size_t_mul
    rw [Nat.mod_eq_of_lt (a := s.shape.1 * s.shape.2) (by omega), Nat.mod_eq_of_lt (by omega)]
  have hle : s.shape.1 * s.shape.2 + 1 ≤ exact_product s.shape + 1 := by
    simp [exact_product, Nat.mul_succ]
  unfold yale_storage_itype
  unfold itype_t.permits at hadm
  refine ⟨hmax, by omega, by omega, ?_, ?_⟩
  · intro x hx
    omega
  · intro i j hi hj
    have hpos : 1 ≤ s.shape.1 := by omega
    have h2 : s.shape.2 + 1 ≤ exact_product s.shape := Nat.le_mul_of_pos_left _ hpos
    omega

/-- C4 amended, at shape `(3,4)`: `YALE_MAX_SIZE = 13` is below `254`. -/
theorem indices_below_reserved_witness :
    YALE_MAX_SIZE (storage_of_shape (3, 4)) <
      (yale_storage_itype (storage_of_shape (3, 4))).max_value - 1 :=
  (indices_below_reserved (storage_of_shape (3, 4)) (by decide)).2.1

/-! ## The maximum size -/

/-- C5 fails on the code: for the shape `(2,1)` the code's `YALE_MAX_SIZE` is
`3`, while the full layout needs `4` slots (two diagonal slots, the sentinel,
and the off-diagonal cell `(1,0)`). -/
theorem max_size_too_small_for_tall_shape :
    YALE_MAX_SIZE (storage_of_shape (2, 1)) = 3 ∧
    full_layout_slots (2, 1) = 4 ∧
    ¬ full_layout_slots (storage_of_shape (2, 1)).shape ≤
        YALE_MAX_SIZE (storage_of_shape (2, 1)) := by
  decide

/-! ## Capacity of a new storage -/

/-- C6 as stated fails: for the shape `(1,1)` and requested capacity `0`,
`YALE_MINIMUM = 3` exceeds `YALE_MAX_SIZE = 2`, so the new capacity `3` is
above the maximum size. -/
theorem capacity_floor_exceeds_max_size :
    0 ≤ YALE_MAX_SIZE (storage_of_shape (1, 1)) ∧
    YALE_MINIMUM (storage_of_shape (1, 1)) = 3 ∧
    YALE_MAX_SIZE (storage_of_shape (1, 1)) = 2 ∧
    ¬ YALE_MINIMUM (storage_of_shape (1, 1)) ≤ YALE_MAX_SIZE (storage_of_shape (1, 1)) ∧
    ¬ yale_storage_create_capacity (storage_of_shape (1, 1)) 0 ≤
        YALE_MAX_SIZE (storage_of_shape (1, 1)) := by
  decide

/-- C6, amended: when `2*rows + 1` and `rows*cols + 1` fit in 64 bits, a new
storage has `rows + 1 ≤ size ≤ capacity`; the floor `YALE_MINIMUM` is at most
`YALE_MAX_SIZE` exactly when `rows = 0` or `cols ≥ 2`, and for a requested
capacity of at most `YALE_MAX_SIZE` the same condition is exactly when
`capacity ≤ YALE_MAX_SIZE = rows*cols + 1`. -/
theorem create_capacity_invariant {DType : Type} (s : YALE_STORAGE DType) (init_capacity : Nat)
    (hmin : 2 * s.shape.1 + 1 < 2 ^ 64) (hmax : s.shape.1 * s.shape.2 + 1 < 2 ^ 64)
    (hinit : init_capacity ≤ YALE_MAX_SIZE s) :
    s.shape.1 + 1 ≤ yale_storage_create_size s ∧
    yale_storage_create_size s ≤ yale_storage_create_capacity s init_capacity ∧
    YALE_MAX_SIZE s = s.shape.1 * s.shape.2 + 1 ∧
    (YALE_MINIMUM s ≤ YALE_MAX_SIZE s ↔ (s.shape.1 = 0 ∨ 2 ≤ s.shape.2)) ∧
    (yale_storage_create_capacity s init_capacity ≤ YALE_MAX_SIZE s ↔
      (s.shape.1 = 0 ∨ 2 ≤ s.shape.2)) := by
  have emin : YALE_MINIMUM s = 2 * s.shape.1 + 1 := by
    unfold YALE_MINIMUM size_t_add size_t_mul
    rw [Nat.mod_eq_of_lt (a := s.shape.1 * 2) (by omega), Nat.mod_eq_of_lt (by omega)]
    omega
  have emax : YALE_MAX_SIZE s = s.shape.1 * s.shape.2 + 1 := by
    unfold YALE_MAX_SIZE size_t_add size_t_mul
    rw [Nat.mod_eq_of_lt (a := s.shape.1 * s.shape.2) (by omega), Nat.mod_eq_of_lt (by omega)]
  have key : 2 * s.shape.1 ≤ s.shape.1 * s.shape.2 ↔ (s.shape.1 = 0 ∨ 2 ≤ s.shape.2) := by
    constructor
    · intro hle
      by_contra hne
      have hr : 1 ≤ s.shape.1 := by omega
      have hc : s.shape.2 ≤ 1 := by omega
      have := Nat.mul_le_mul_left s.shape.1 hc
      omega
    · rintro (h0 | h2)
      · simp [h0]
      · have := Nat.mul_le_mul_left s.shape.1 h2
        omega
  unfold yale_storage_create_capacity yale_storage_create_size
  rw [emin]
  rw [emax] at hinit ⊢
  refine ⟨le_refl _, ?_, rfl, ?_, ?_⟩
  · exact le_trans (by omega) (le_max_right _ _)
  · rw [← key]; omega
  · rw [← key, max_le_iff]; omega

/-- C6 amended, at shape `(3,4)` with requested capacity `5`: the new capacity
`7` is at most `YALE_MAX_SIZE = 13`. -/
theorem create_capacity_invariant_witness :
    yale_storage_create_capacity (storage_of_shape (3, 4)) 5 ≤
      YALE_MAX_SIZE (storage_of_shape (3, 4)) :=
  (create_capacity_invariant (storage_of_shape (3, 4)) 5 (by decide) (by decide)
    (by decide)).2.2.2.2.mpr (Or.inr (by decide))

/-! ## The index type of a storage -/

/-- C7: the index type of a storage is determined by its shape alone: two
storages of equal shape, of any element types and with any tags, capacity,
index vector and value vector, have the same index type, which is the one the
selector gives for the shape. -/
theorem itype_determined_by_shape {D1 D2 : Type} (s1 : YALE_STORAGE D1) (s2 : YALE_STORAGE D2)
    (h : s1.shape = s2.shape) :
    yale_storage_itype s1 = yale_storage_itype s2 ∧
    yale_storage_itype s1 = yale_storage_itype_by_shape s1.shape ∧
    yale_storage_itype s2 = yale_storage_itype_by_shape s1.shape := by
  unfold yale_storage_itype
  rw [h]
  exact ⟨rfl, rfl, rfl⟩

/-- C7 at two storages of shape `(20,20)` that differ in every other field and
in their element type. -/
theorem itype_determined_by_shape_witness :
    yale_storage_itype
        ({ dtype := 1, itype := itype_t.UINT8, shape := (20, 20), capacity := 41,
           ija := [21, 21], a := [(5 : Int)] } : YALE_STORAGE Int) =
      yale_storage_itype
        ({ dtype := 7, itype := itype_t.UINT64, shape := (20, 20), capacity := 400,
           ija := [], a := [true, false] } : YALE_STORAGE Bool) :=
  (itype_determined_by_shape _ _ rfl).1

/-! ## Clearing the diagonal -/

/-- Loop invariant of `clear_loop`: started at counter `i ≤ bound` on a vector
with at least `bound` slots and with enough fuel, the loop terminates
normally, assigns exactly the positions `i, ..., bound - 1` in ascending order,
leaves them zero and leaves every other position as it was. -/
theorem clear_loop_spec {DType : Type} [Zero DType] (bound : Nat) (hb : bound < 2 ^ 64) :
    ∀ (fuel i : Nat) (a : List DType) (writes : List Nat),
      i ≤ bound → bound ≤ a.length → bound - i ≤ fuel →
      ∃ a2 : List DType,
        clear_loop bound fuel i a writes = some (a2, writes ++ List.range' i (bound - i)) ∧
        a2.length = a.length ∧
        (∀ k : Nat, i ≤ k → k < bound → a2[k]? = some 0) ∧
        (∀ k : Nat, k < i ∨ bound ≤ k → a2[k]? = a[k]?) := by
  intro fuel
  induction fuel with
  | zero =>
    intro i a writes hi _ hfuel
    have hib : bound - i = 0 := by omega
    refine ⟨a, ?_, rfl, ?_, fun _ _ => rfl⟩
    · simp only [clear_loop, hib, List.range'_zero, List.append_nil]
      rw [if_neg (by omega)]
    · intro k h1 h2; omega
  | succ fuel ih =>
    intro i a writes hi hlen hfuel
    by_cases hlt : i < bound
    · have hstep : size_t_add i 1 = i + 1 := by
        unfold size_t_add
        exact Nat.mod_eq_of_lt (by omega)
      obtain ⟨a2, hrun, hlen2, hzero, hframe⟩ :=
        ih (i + 1) (a.set i 0) (writes ++ [i]) (by omega) (by simpa using hlen) (by omega)
      refine ⟨a2, ?_, by simpa using hlen2, ?_, ?_⟩
      · have hcount : bound - i = (bound - (i + 1)) + 1 := by omega
        simp only [clear_loop]
        rw [if_pos hlt, if_pos (by omega), hstep, hrun, hcount, List.range'_succ]
        simp
      · intro k h1 h2
        by_cases hk : k = i
        · subst hk
          rw [hframe k (Or.inl (by omega))]
          exact List.getElem?_set_self (by omega)
        · exact hzero k (by omega) h2
      · intro k hk
        rw [hframe k (by omega)]
        exact List.getElem?_set_ne (by omega)
    · have hib : bound - i = 0 := by omega
      refine ⟨a, ?_, rfl, ?_, fun _ _ => rfl⟩
      · simp only [clear_loop, hib, List.range'_zero, List.append_nil]
        rw [if_neg hlt]
      · intro k h1 h2; omega

/-- The call on a storage whose value vector has at least `rows + 1` slots (and,
being addressable, fewer than `2 ^ 64`): it returns, and the result is
described slot by slot. -/
theorem clear_diagonal_spec {DType : Type} [Zero DType] (s : YALE_STORAGE DType)
    (hlen : s.shape.1 + 1 ≤ s.a.length) (haddr : s.a.length < 2 ^ 64) :
    ∃ a2 : List DType,
      yale_storage_clear_diagonal_and_zero_template s =
        some ({ s with a := a2 }, List.range (s.shape.1 + 1)) ∧
      a2.length = s.a.length ∧
      (∀ k : Nat, k ≤ s.shape.1 → a2[k]? = some 0) ∧
      (∀ k : Nat, s.shape.1 < k → a2[k]? = s.a[k]?) := by
  have hbound : size_t_add s.shape.1 1 = s.shape.1 + 1 := by
    unfold size_t_add
    exact Nat.mod_eq_of_lt (by omega)
  obtain ⟨a2, hrun, hlen2, hzero, hframe⟩ :=
    clear_loop_spec (s.shape.1 + 1) (by omega) (s.shape.1 + 1) 0 s.a [] (by omega) hlen
      (by omega)
  refine ⟨a2, ?_, hlen2, ?_, ?_⟩
  · simp only [yale_storage_clear_diagonal_and_zero_template, hbound, hrun]
    simp [List.range_eq_range']
  · intro k hk
    exact hzero k (by omega) (by omega)
  · intro k hk
    exact hframe k (Or.inr (by omega))

/-- C8: on every storage whose value vector has at least `rows + 1` entries
(and is addressable, so has fewer than `2^64`), the call returns, and
afterwards the diagonal slots `a[0..rows-1]` and the sentinel slot `a[rows]`
are zero, whatever `a` held before. -/
theorem clear_zeroes_diagonal_and_sentinel {DType : Type} [Zero DType] (s : YALE_STORAGE DType)
    (hlen : s.shape.1 + 1 ≤ s.a.length) (haddr : s.a.length < 2 ^ 64) :
    ∃ (s2 : YALE_STORAGE DType) (writes : List Nat),
      yale_storage_clear_diagonal_and_zero_template s = some (s2, writes) ∧
      ∀ k : Nat, k ≤ s.shape.1 → s2.a[k]? = some 0 := by
  obtain ⟨a2, hrun, _, hzero, _⟩ := clear_diagonal_spec s hlen haddr
  exact ⟨{ s with a := a2 }, _, hrun, hzero⟩

/-- C8 on a `2 × 3` storage of integers whose value vector is `[5,6,7,8,9]`. -/
theorem clear_zeroes_diagonal_and_sentinel_witness :
    ∃ (s2 : YALE_STORAGE Int) (writes : List Nat),
      yale_storage_clear_diagonal_and_zero_template
        ({ dtype := 0, itype := itype_t.UINT8, shape := (2, 3), capacity := 5,
           ija := [3, 3, 3, 0, 0], a := [5, 6, 7, 8, 9] } : YALE_STORAGE Int) =
        some (s2, writes) ∧
      ∀ k : Nat, k ≤ 2 → s2.a[k]? = some 0 :=
  clear_zeroes_diagonal_and_sentinel
    ({ dtype := 0, itype := itype_t.UINT8, shape := (2, 3), capacity := 5,
       ija := [3, 3, 3, 0, 0], a := [5, 6, 7, 8, 9] } : YALE_STORAGE Int)
    (by decide) (by decide)

/-- C9: on every storage whose value vector has at least `rows + 1` entries
(and is addressable), the call returns and changes only the D portion of the
value vector: every slot `a[k]` with `k > rows` is unchanged, the length of
`a`, the shape, the capacity, the tags and the whole index vector are
unchanged, and the positions assigned are exactly `0, 1, ..., rows`, each
once, so no position past `rows` is touched.  The assignments are visible in
the vector: every slot `a[0..rows]` holds zero afterwards, a slot holds zero
if it was assigned and its old value if it was not, and the new vector is
`rows + 1` zeros followed by the old vector from position `rows + 1` on. -/
theorem clear_touches_only_diagonal_part {DType : Type} [Zero DType] (s : YALE_STORAGE DType)
    (hlen : s.shape.1 + 1 ≤ s.a.length) (haddr : s.a.length < 2 ^ 64) :
    ∃ (s2 : YALE_STORAGE DType) (writes : List Nat),
      yale_storage_clear_diagonal_and_zero_template s = some (s2, writes) ∧
      (∀ k : Nat, s.shape.1 < k → s2.a[k]? = s.a[k]?) ∧
      s2.a.length = s.a.length ∧
      s2.shape = s.shape ∧ s2.capacity = s.capacity ∧ s2.ija = s.ija ∧
      s2.dtype = s.dtype ∧ s2.itype = s.itype ∧
      writes = List.range (s.shape.1 + 1) ∧
      (∀ k : Nat, k ∈ writes → k ≤ s.shape.1) ∧
      (∀ k : Nat, k ≤ s.shape.1 → s2.a[k]? = some 0) ∧
      (∀ k : Nat, k ∈ writes → s2.a[k]? = some 0) ∧
      (∀ k : Nat, k ∉ writes → s2.a[k]? = s.a[k]?) ∧
      s2.a = List.replicate (s.shape.1 + 1) 0 ++ s.a.drop (s.shape.1 + 1) := by
  obtain ⟨a2, hrun, hlen2, hzero, hframe⟩ := clear_diagonal_spec s hlen haddr
  refine ⟨{ s with a := a2 }, _, hrun, hframe, hlen2, rfl, rfl, rfl, rfl, rfl, rfl,
    ?_, hzero, ?_, ?_, ?_⟩
  · intro k hk
    have := List.mem_range.mp hk
    omega
  · intro k hk
    have := List.mem_range.mp hk
    exact hzero k (by omega)
  · intro k hk
    have hk2 : ¬ k < s.shape.1 + 1 := fun h => hk (List.mem_range.mpr h)
    exact hframe k (by omega)
  · apply List.ext_getElem?
    intro k
    show a2[k]? = _
    by_cases hk : k ≤ s.shape.1
    · rw [hzero k hk, List.getElem?_append_left (by simp; omega)]
      simp [List.getElem?_replicate]
      omega
    · rw [hframe k (by omega), List.getElem?_append_right (by simp; omega)]
      simp only [List.length_replicate, List.getElem?_drop]
      congr 1
      omega

/-- C9 on a `2 × 3` storage of integers whose value vector is `[5,6,7,8,9]`:
the new vector is `[0,0,0,8,9]`, the index vector is unchanged and the
positions assigned are `0, 1, 2`. -/
theorem clear_touches_only_diagonal_part_witness :
    ∃ (s2 : YALE_STORAGE Int) (writes : List Nat),
      yale_storage_clear_diagonal_and_zero_template
        ({ dtype := 0, itype := itype_t.UINT8, shape := (2, 3), capacity := 5,
           ija := [3, 3, 3, 0, 0], a := [5, 6, 7, 8, 9] } : YALE_STORAGE Int) =
        some (s2, writes) ∧
      (∀ k : Nat, 2 < k → s2.a[k]? = ([5, 6, 7, 8, 9] : List Int)[k]?) ∧
      s2.ija = [3, 3, 3, 0, 0] ∧ writes = [0, 1, 2] ∧ s2.a = [0, 0, 0, 8, 9] := by
  obtain ⟨s2, writes, h1, h2, _, _, _, h3, _, _, h4, _, _, _, _, h5⟩ :=
    clear_touches_only_diagonal_part
      ({ dtype := 0, itype := itype_t.UINT8, shape := (2, 3), capacity := 5,
         ija := [3, 3, 3, 0, 0], a := [5, 6, 7, 8, 9] } : YALE_STORAGE Int)
      (by decide) (by decide)
  exact ⟨s2, writes, h1, h2, h3, h4, h5⟩

/-- The call evaluated on the same storage: the value vector becomes
`[0,0,0,8,9]` and the positions written are `0, 1, 2`. -/
theorem clear_diagonal_example :
    (yale_storage_clear_diagonal_and_zero_template
      ({ dtype := 0, itype := itype_t.UINT8, shape := (2, 3), capacity := 5,
         ija := [3, 3, 3, 0, 0], a := [5, 6, 7, 8, 9] } : YALE_STORAGE Int)).map
      (fun r => (r.1.a, r.2)) = some ([0, 0, 0, 8, 9], [0, 1, 2]) := by
  decide

/-- A value vector that is too short makes the loop assign outside the
vector, which the embedding reports as `none`. -/
theorem clear_diagonal_out_of_bounds_example :
    (yale_storage_clear_diagonal_and_zero_template
      ({ dtype := 0, itype := itype_t.UINT8, shape := (2, 3), capacity := 2,
         ija := [3, 3], a := [5, 6] } : YALE_STORAGE Int)).isNone = true := by
  decide

end Yale
